import Mathlib

/-
  Verification of the named-argument parser (repository: olsonpm/parse-args).

  The development shallowly embeds the two source files:
    - src/lib/named-simple.js   (Variant A: help/version short-circuit and
      optional leading command extraction)
    - src/unnamed/part_000      (Variant B: core grammar only)

  A JavaScript object used as a string-keyed mapping is embedded as an
  insertion-ordered association list (ResultMap).  The mutation of the
  caller-supplied argument array performed by handleCommand (allArgs.shift())
  is made explicit: the Variant A entry point returns the final state of the
  argument array next to the parse outcome.  Thrown errors are embedded as
  Except values carrying the same payloads the thrown Error objects carry.
-/

namespace ParseArgs

/-- Embeds the JavaScript expression s.startsWith(pre). -/
def strStartsWith (s pre : String) : Bool :=
  pre.data.isPrefixOf s.data

/-- Drops the leading dashes of an option name, first step of the dash-to-camel
conversion. -/
def stripDashes : List Char → List Char
  | [] => []
  | c :: rest => if c = '-' then stripDashes rest else c :: rest

/-- Converts the remaining dash-separated segments to camel case: a dash is
dropped and the following character is upper-cased. -/
def camelChars : List Char → List Char
  | [] => []
  | [c] => [c]
  | c :: d :: rest =>
    if c = '-' then d.toUpper :: camelChars rest
    else c :: camelChars (d :: rest)

/-- Modelled from the spec: section 6 names the dash-to-camel-case converter
(the npm camelcase package, not part of this repository) as an out-of-scope
collaborator, assumed correct and total; section 3 describes it as converting
dashed form (--foo-bar) to camel case (fooBar). -/
def camelcase (s : String) : String :=
  ⟨camelChars (stripDashes s.data)⟩

/-- A value stored in the result object: a raw string, an accumulator array of
raw strings, or the boolean true used by the help/version short-circuit. -/
inductive Value where
  | str (s : String)
  | arr (vs : List String)
  | flag (b : Bool)
  deriving DecidableEq

/-- The result object, embedded as an insertion-ordered association list with
unique keys. -/
abbrev ResultMap := List (String × Value)

/-- Reads result[key]. -/
def getVal : ResultMap → String → Option Value
  | [], _ => none
  | (k', v') :: tl, k => if k' = k then some v' else getVal tl k

/-- Embeds the JavaScript assignment result[key] = val: an existing key keeps
its position, a new key is appended at the end. -/
def setKey : ResultMap → String → Value → ResultMap
  | [], k, v => [(k, v)]
  | (k', v') :: tl, k, v =>
    if k' = k then (k', v) :: tl else (k', v') :: setKey tl k v

/-- Embeds the loop body update: if Array.isArray(result[key]) then
result[key].push(val) else result[key] = val. -/
def updateKey (result : ResultMap) (key val : String) : ResultMap :=
  match getVal result key with
  | some (Value.arr vs) => setKey result key (Value.arr (vs ++ [val]))
  | _ => setKey result key (Value.str val)

/-- The four failure kinds thrown by the parser, with the payloads the thrown
Error objects mention. -/
inductive ParseErr where
  | noCommandGiven
  | unknownCommand (cmd : String) (commands : List String)
  | expectedNamed (arg : String) (allArgs : List String)
  | missingValue (arg : String) (allArgs : List String)
  deriving DecidableEq

/-- The err.id tag attached to each thrown Error. -/
def errId : ParseErr → String
  | ParseErr.noCommandGiven => "no command given"
  | ParseErr.unknownCommand _ _ => "command given doesn\x27t exist"
  | ParseErr.expectedNamed _ _ => "expected to be named"
  | ParseErr.missingValue _ _ => "last arg cannot be named"

/-- Embeds initResult: allowMultiple.reduce((res, arg) =>
\x7b res[camelcase(arg)] = []; return res \x7d, \x7b\x7d). -/
def initResult (allowMultiple : List String) : ResultMap :=
  allowMultiple.foldl (fun res arg => setKey res (camelcase arg) (Value.arr [])) []

/-- Embeds the main for-loop shared by both variants.  The first parameter is
the array the error messages reference (JSON.stringify(allArgs)); the second is
the remaining tokens at the cursor.  The source checks the name prefix before
the last-position check, consumes the following token as the value, and
advances the cursor past the pair. -/
def mainLoop (all : List String) : List String → ResultMap → Except ParseErr ResultMap
  | [], result => Except.ok result
  | [arg], _ =>
    if strStartsWith arg ("--") then Except.error (ParseErr.missingValue arg all)
    else Except.error (ParseErr.expectedNamed arg all)
  | arg :: val :: rest, result =>
    if strStartsWith arg ("--") then
      mainLoop all rest (updateKey result (camelcase arg) val)
    else Except.error (ParseErr.expectedNamed arg all)

/-- Embeds handleCommand from src/lib/named-simple.js.  On success it records
result._command and performs allArgs.shift(); the returned list is the state of
the argument array afterwards. -/
def handleCommand (allArgs commands : List String) (result : ResultMap) :
    Except ParseErr (ResultMap × List String) :=
  if commands = [] then Except.ok (result, allArgs)
  else
    match allArgs with
    | [] => Except.error ParseErr.noCommandGiven
    | theCommand :: rest =>
      if theCommand ∈ commands then
        Except.ok (setKey result ("_command") (Value.str theCommand), rest)
      else Except.error (ParseErr.unknownCommand theCommand commands)

/-- Embeds namedSimple from src/lib/named-simple.js (Variant A).  The second
component of the returned pair is the final state of the caller-supplied
argument array, so the shift performed by handleCommand is observable. -/
def namedSimpleA (allArgs allowMultiple commands : List String) :
    Except ParseErr ResultMap × List String :=
  if "--help" ∈ allArgs then (Except.ok [("help", Value.flag true)], allArgs)
  else if "--version" ∈ allArgs then (Except.ok [("version", Value.flag true)], allArgs)
  else
    match handleCommand allArgs commands (initResult allowMultiple) with
    | Except.error e => (Except.error e, allArgs)
    | Except.ok (result, rest) => (mainLoop rest rest result, rest)

/-- Embeds namedSimple from src/unnamed/part_000 (Variant B): no help/version
check, no command handling.  The loop never mutates the argument array. -/
def namedSimpleB (allArgs allowMultiple : List String) : Except ParseErr ResultMap :=
  mainLoop allArgs allArgs (initResult allowMultiple)

/-- Specification-level extraction of the (camel-cased name, value) pairs the
main loop consumes; some exactly when the loop succeeds. -/
def collect : List String → Option (List (String × String))
  | [] => some []
  | [_] => none
  | arg :: val :: rest =>
    if strStartsWith arg ("--") then
      (collect rest).map (fun tl => (camelcase arg, val) :: tl)
    else none

/-- Replays a list of (key, value) pairs against an accumulator with the loop
body update. -/
def applyPairs (acc : ResultMap) : List (String × String) → ResultMap
  | [] => acc
  | (k, v) :: tl => applyPairs (updateKey acc k v) tl

/-- The values supplied for a key, in first-to-last encounter order. -/
def valuesFor (k : String) : List (String × String) → List String
  | [] => []
  | (k', v) :: tl => if k' = k then v :: valuesFor k tl else valuesFor k tl

/-- The value of the last occurrence of a key, if any. -/
def lastValue (k : String) : List (String × String) → Option String
  | [] => none
  | (k', v) :: tl =>
    match lastValue k tl with
    | some w => some w
    | none => if k' = k then some v else none

/-- The scalar entry a key holds after replaying pairs, given what it held
before. -/
def scalarResult (o : Option String) (d : Option Value) : Option Value :=
  match o with
  | some v => some (Value.str v)
  | none => d

/-- Turns a list of (name, value) pairs into the flat token sequence that
presents each name and its value consecutively. -/
def flatten : List (String × String) → List String
  | [] => []
  | (n, v) :: tl => n :: v :: flatten tl

/-- Induction principle that mirrors the two-tokens-at-a-time recursion of the
main loop. -/
def twoStepInduction {motive : List String → Prop}
    (h0 : motive []) (h1 : ∀ a, motive [a])
    (h2 : ∀ a v rest, motive rest → motive (a :: v :: rest)) :
    ∀ l, motive l
  | [] => h0
  | [a] => h1 a
  | a :: v :: rest => h2 a v rest (twoStepInduction h0 h1 h2 rest)

instance : DecidableEq (Except ParseErr ResultMap) := fun a b =>
  match a, b with
  | Except.ok x, Except.ok y =>
    if h : x = y then Decidable.isTrue (by rw [h])
    else Decidable.isFalse (fun hh => h (Except.ok.inj hh))
  | Except.error x, Except.error y =>
    if h : x = y then Decidable.isTrue (by rw [h])
    else Decidable.isFalse (fun hh => h (Except.error.inj hh))
  | Except.ok _, Except.error _ => Decidable.isFalse (fun hh => Except.noConfusion hh)
  | Except.error _, Except.ok _ => Decidable.isFalse (fun hh => Except.noConfusion hh)

/-! Association-list lemmas. -/

theorem getVal_setKey_self (r : ResultMap) (k : String) (v : Value) :
    getVal (setKey r k v) k = some v := by
  induction r with
  | nil => simp [setKey, getVal]
  | cons p tl ih =>
    obtain ⟨k₁, v₁⟩ := p
    by_cases h : k₁ = k
    · simp [setKey, getVal, h]
    · simp [setKey, getVal, h, ih]

theorem getVal_setKey_ne (r : ResultMap) (k k' : String) (v : Value) (hne : k ≠ k') :
    getVal (setKey r k' v) k = getVal r k := by
  have hne' : ¬ k' = k := fun h => hne h.symm
  induction r with
  | nil => simp [setKey, getVal, hne']
  | cons p tl ih =>
    obtain ⟨k₁, v₁⟩ := p
    by_cases h : k₁ = k'
    · subst h
      simp [setKey, getVal, hne']
    · simp [setKey, getVal, h, ih]

theorem getVal_updateKey_ne (r : ResultMap) (key k val : String) (hne : k ≠ key) :
    getVal (updateKey r key val) k = getVal r k := by
  unfold updateKey
  cases hg : getVal r key with
  | none => exact getVal_setKey_ne r k key _ hne
  | some w =>
    cases w with
    | str s => exact getVal_setKey_ne r k key _ hne
    | arr vs => exact getVal_setKey_ne r k key _ hne
    | flag b => exact getVal_setKey_ne r k key _ hne

theorem updateKey_of_arr (r : ResultMap) (key val : String) (vs : List String)
    (hg : getVal r key = some (Value.arr vs)) :
    updateKey r key val = setKey r key (Value.arr (vs ++ [val])) := by
  unfold updateKey
  rw [hg]

theorem updateKey_of_not_arr (r : ResultMap) (key val : String)
    (h : ∀ vs, getVal r key ≠ some (Value.arr vs)) :
    updateKey r key val = setKey r key (Value.str val) := by
  unfold updateKey
  cases hg : getVal r key with
  | none => rfl
  | some w =>
    cases w with
    | str s => rfl
    | arr vs => exact absurd hg (h vs)
    | flag b => rfl

theorem getVal_initAux (am : List String) :
    ∀ (acc : ResultMap) (k : String),
      getVal (am.foldl (fun res arg => setKey res (camelcase arg) (Value.arr [])) acc) k
        = if k ∈ am.map camelcase then some (Value.arr []) else getVal acc k := by
  induction am with
  | nil => intro acc k; simp
  | cons a tl ih =>
    intro acc k
    rw [List.foldl_cons, ih]
    by_cases h1 : k ∈ tl.map camelcase
    · simp [List.mem_cons, h1]
    · by_cases h2 : k = camelcase a
      · subst h2
        simp [List.mem_cons, h1, getVal_setKey_self]
      · simp [List.mem_cons, h1, h2, getVal_setKey_ne _ _ _ _ h2]

theorem getVal_initResult (am : List String) (k : String) :
    getVal (initResult am) k
      = if k ∈ am.map camelcase then some (Value.arr []) else none := by
  rw [initResult, getVal_initAux]
  rfl

/-! Replay lemmas: what each key holds after the loop body has processed a
list of (key, value) pairs. -/

theorem getVal_applyPairs_arr (ps : List (String × String)) :
    ∀ (acc : ResultMap) (k : String) (vs : List String),
      getVal acc k = some (Value.arr vs) →
      getVal (applyPairs acc ps) k = some (Value.arr (vs ++ valuesFor k ps)) := by
  induction ps with
  | nil =>
    intro acc k vs h
    simpa [applyPairs, valuesFor] using h
  | cons p tl ih =>
    obtain ⟨k₁, v⟩ := p
    intro acc k vs h
    by_cases hk : k₁ = k
    · subst hk
      rw [applyPairs, updateKey_of_arr acc k₁ v vs h]
      have h' : getVal (setKey acc k₁ (Value.arr (vs ++ [v]))) k₁
          = some (Value.arr (vs ++ [v])) := getVal_setKey_self _ _ _
      rw [ih _ _ _ h']
      simp [valuesFor, List.append_assoc]
    · have hne : k ≠ k₁ := fun hh => hk hh.symm
      have hg : getVal (updateKey acc k₁ v) k = getVal acc k :=
        getVal_updateKey_ne acc k₁ k v hne
      rw [applyPairs, ih _ _ _ (hg.trans h)]
      simp [valuesFor, hk]

theorem getVal_applyPairs_scalar (ps : List (String × String)) :
    ∀ (acc : ResultMap) (k : String),
      (∀ vs, getVal acc k ≠ some (Value.arr vs)) →
      getVal (applyPairs acc ps) k = scalarResult (lastValue k ps) (getVal acc k) := by
  induction ps with
  | nil =>
    intro acc k h
    simp [applyPairs, lastValue, scalarResult]
  | cons p tl ih =>
    obtain ⟨k₁, v⟩ := p
    intro acc k h
    by_cases hk : k₁ = k
    · subst hk
      have hu : updateKey acc k₁ v = setKey acc k₁ (Value.str v) :=
        updateKey_of_not_arr _ _ _ h
      have hacc : getVal (setKey acc k₁ (Value.str v)) k₁ = some (Value.str v) :=
        getVal_setKey_self _ _ _
      have ih' := ih (setKey acc k₁ (Value.str v)) k₁ (by rw [hacc]; simp)
      rw [applyPairs, hu, ih', hacc]
      simp only [lastValue]
      cases hl : lastValue k₁ tl with
      | some w => simp [scalarResult]
      | none => simp [scalarResult]
    · have hne : k ≠ k₁ := fun hh => hk hh.symm
      have hg : getVal (updateKey acc k₁ v) k = getVal acc k :=
        getVal_updateKey_ne acc k₁ k v hne
      have ih' := ih (updateKey acc k₁ v) k (by rw [hg]; exact h)
      rw [applyPairs, ih', hg]
      simp only [lastValue]
      cases hl : lastValue k tl with
      | some w => simp
      | none => simp [hk]

theorem scalarResult_none (o : Option String) :
    scalarResult o none = o.map Value.str := by
  cases o <;> rfl

theorem lastValue_eq_none (k : String) (ps : List (String × String))
    (h : ∀ p ∈ ps, p.1 ≠ k) : lastValue k ps = none := by
  induction ps with
  | nil => rfl
  | cons p tl ih =>
    obtain ⟨k₁, v⟩ := p
    simp only [lastValue]
    rw [ih (fun q hq => h q (List.mem_cons_of_mem _ hq))]
    have hne : ¬ k₁ = k := h (k₁, v) (List.mem_cons_self _ _)
    rw [if_neg hne]

/-! Main-loop characterization lemmas. -/

theorem mainLoop_ok (toks : List String) :
    ∀ (all : List String) (acc : ResultMap) (ps : List (String × String)),
      collect toks = some ps → mainLoop all toks acc = Except.ok (applyPairs acc ps) := by
  induction toks using twoStepInduction with
  | h0 =>
    intro all acc ps h
    simp only [collect, Option.some.injEq] at h
    subst h
    rfl
  | h1 a =>
    intro all acc ps h
    simp [collect] at h
  | h2 a v rest ih =>
    intro all acc ps h
    simp only [collect] at h
    by_cases hs : strStartsWith a ("--") = true
    · rw [if_pos hs] at h
      cases hr : collect rest with
      | none => rw [hr] at h; simp at h
      | some tl =>
        rw [hr] at h
        simp only [Option.map_some', Option.some.injEq] at h
        subst h
        simp only [mainLoop]
        rw [if_pos hs]
        exact ih all (updateKey acc (camelcase a) v) tl hr
    · rw [if_neg hs] at h
      exact absurd h (by simp)

theorem mainLoop_err (toks : List String) :
    ∀ (all : List String) (acc : ResultMap),
      collect toks = none → ∃ e, mainLoop all toks acc = Except.error e := by
  induction toks using twoStepInduction with
  | h0 =>
    intro all acc h
    simp [collect] at h
  | h1 a =>
    intro all acc h
    by_cases hs : strStartsWith a ("--") = true
    · exact ⟨ParseErr.missingValue a all, by simp only [mainLoop]; rw [if_pos hs]⟩
    · exact ⟨ParseErr.expectedNamed a all, by simp only [mainLoop]; rw [if_neg hs]⟩
  | h2 a v rest ih =>
    intro all acc h
    simp only [collect] at h
    by_cases hs : strStartsWith a ("--") = true
    · rw [if_pos hs] at h
      have hr : collect rest = none := by
        cases hr : collect rest with
        | none => rfl
        | some tl => rw [hr] at h; simp at h
      obtain ⟨e, he⟩ := ih all (updateKey acc (camelcase a) v) hr
      exact ⟨e, by simp only [mainLoop]; rw [if_pos hs]; exact he⟩
    · exact ⟨ParseErr.expectedNamed a all, by simp only [mainLoop]; rw [if_neg hs]⟩

theorem mainLoop_last (all : List String) (a : String) (acc : ResultMap)
    (h : strStartsWith a ("--") = true) :
    mainLoop all [a] acc = Except.error (ParseErr.missingValue a all) := by
  simp only [mainLoop]
  rw [if_pos h]

theorem mainLoop_notNamed (all : List String) (t : String) (tail : List String)
    (acc : ResultMap) (h : strStartsWith t ("--") = false) :
    mainLoop all (t :: tail) acc = Except.error (ParseErr.expectedNamed t all) := by
  have h' : ¬ strStartsWith t ("--") = true := by simp [h]
  cases tail with
  | nil => simp only [mainLoop]; rw [if_neg h']
  | cons v tr => simp only [mainLoop]; rw [if_neg h']

theorem mainLoop_append (l : List (String × String)) :
    (∀ p ∈ l, strStartsWith p.1 ("--") = true) →
    ∀ (all suffix : List String) (acc : ResultMap),
      mainLoop all (flatten l ++ suffix) acc
        = mainLoop all suffix (applyPairs acc (l.map (fun p => (camelcase p.1, p.2)))) := by
  induction l with
  | nil => intro _ all suffix acc; rfl
  | cons p tl ih =>
    obtain ⟨n, v⟩ := p
    intro h all suffix acc
    have hs : strStartsWith n ("--") = true := h (n, v) (List.mem_cons_self _ _)
    show mainLoop all (n :: v :: (flatten tl ++ suffix)) acc = _
    simp only [mainLoop]
    rw [if_pos hs]
    exact ih (fun q hq => h q (List.mem_cons_of_mem _ hq)) all suffix
      (updateKey acc (camelcase n) v)

/-- Reduction of the Variant A entry point when a valid command is extracted:
the command is recorded under the reserved key and the main loop runs on (and
reports errors about) the shifted array. -/
theorem namedSimpleA_command (c : String) (rest am cmds : List String) (hc : cmds ≠ [])
    (h1 : "--help" ∉ c :: rest) (h2 : "--version" ∉ c :: rest) (hm : c ∈ cmds) :
    namedSimpleA (c :: rest) am cmds
      = (mainLoop rest rest (setKey (initResult am) ("_command") (Value.str c)), rest) := by
  simp only [namedSimpleA, handleCommand]
  rw [if_neg h1, if_neg h2, if_neg hc, if_pos hm]

/-! Claim theorems. -/

/-- Claim C1: any token sequence containing the literal token --help makes
Variant A return exactly the single-key mapping with help mapped to true, with
no other keys and no failure, and the argument array is left untouched; this
happens before command validation and before any grammar check. -/
theorem claim_C1 (args am cmds : List String) (h : "--help" ∈ args) :
    namedSimpleA args am cmds = (Except.ok [("help", Value.flag true)], args) := by
  simp only [namedSimpleA]
  rw [if_pos h]

theorem claim_C1_witness :
    namedSimpleA ["bogus", "--help", "--broken"] ["--name"] ["run"]
      = (Except.ok [("help", Value.flag true)], ["bogus", "--help", "--broken"]) :=
  claim_C1 ["bogus", "--help", "--broken"] ["--name"] ["run"] (by decide)

/-- Claim C3, counterexample: with command mode enabled and a valid first
command, handleCommand removes the command token from the caller-supplied
array (allArgs.shift()), so the sequence observed by the caller afterwards is
not the sequence it passed in. -/
theorem claim_C3_cex :
    (namedSimpleA ["run", "--force", "x"] [] ["run", "build"]).2
      ≠ ["run", "--force", "x"] := by
  decide

/-- Claim C3, amended: the caller-supplied token sequence is left untouched on
every path except one: when help/version do not short-circuit, command mode is
enabled and the first token is a valid command, the command token is removed
from the caller-owned array, and that mutation is also visible on subsequent
main-loop failures. -/
theorem claim_C3_amended (args am cmds : List String) :
    (namedSimpleA args am cmds).2
      = if "--help" ∈ args then args
        else if "--version" ∈ args then args
        else if cmds = [] then args
        else
          match args with
          | [] => args
          | c :: _ => if c ∈ cmds then args.tail else args := by
  by_cases h1 : "--help" ∈ args
  · simp [namedSimpleA, h1]
  · by_cases h2 : "--version" ∈ args
    · simp [namedSimpleA, h1, h2]
    · by_cases h3 : cmds = []
      · simp [namedSimpleA, handleCommand, h1, h2, h3]
      · cases args with
        | nil => simp [namedSimpleA, handleCommand, h1, h2, h3]
        | cons c rest =>
          by_cases h4 : c ∈ cmds
          · simp [namedSimpleA, handleCommand, h1, h2, h3, h4]
          · simp [namedSimpleA, handleCommand, h1, h2, h3, h4]

/-- Claim C6: with a non-empty command set and no help/version token, an empty
sequence fails with the NoCommandGiven kind, and a first token outside the
command set fails with the UnknownCommand kind carrying the offending token
and the full allowed set. -/
theorem claim_C6 (args am cmds : List String) (hc : cmds ≠ [])
    (h1 : "--help" ∉ args) (h2 : "--version" ∉ args) :
    (args = [] → namedSimpleA args am cmds = (Except.error ParseErr.noCommandGiven, args))
    ∧ (∀ c rest, args = c :: rest → c ∉ cmds →
        namedSimpleA args am cmds = (Except.error (ParseErr.unknownCommand c cmds), args)) := by
  constructor
  · intro he
    subst he
    simp only [namedSimpleA, handleCommand]
    rw [if_neg h1, if_neg h2, if_neg hc]
  · intro c rest he hnc
    subst he
    simp only [namedSimpleA, handleCommand]
    rw [if_neg h1, if_neg h2, if_neg hc, if_neg hnc]

theorem claim_C6_witness :
    namedSimpleA [] [] ["run", "build"] = (Except.error ParseErr.noCommandGiven, [])
    ∧ namedSimpleA ["deploy"] [] ["run", "build"]
        = (Except.error (ParseErr.unknownCommand ("deploy") ["run", "build"]), ["deploy"]) :=
  ⟨(claim_C6 [] [] ["run", "build"] (by decide) (by decide) (by decide)).1 rfl,
   (claim_C6 ["deploy"] [] ["run", "build"] (by decide) (by decide) (by decide)).2
     ("deploy") [] rfl (by decide)⟩

/-- Claim C7: with a non-empty command set, no help/version token, and a first
token belonging to the set, Variant A records the first token under the
reserved key _command and runs the main loop only on the remaining tokens. -/
theorem claim_C7 (c : String) (rest am cmds : List String) (hc : cmds ≠ [])
    (h1 : "--help" ∉ c :: rest) (h2 : "--version" ∉ c :: rest) (hm : c ∈ cmds) :
    namedSimpleA (c :: rest) am cmds
      = (mainLoop rest rest (setKey (initResult am) ("_command") (Value.str c)), rest) :=
  namedSimpleA_command c rest am cmds hc h1 h2 hm

theorem claim_C7_witness :
    namedSimpleA ["run", "--force", "x"] [] ["run", "build"]
      = (Except.ok [("_command", Value.str "run"), ("force", Value.str "x")],
         ["--force", "x"]) := by
  rw [claim_C7 ("run") ["--force", "x"] [] ["run", "build"]
        (by decide) (by decide) (by decide) (by decide)]
  rfl

/-- Claim C8: a sequence containing --version but not --help makes Variant A
return exactly the single-key mapping with version mapped to true; when both
are present, --help wins. -/
theorem claim_C8 (args am cmds : List String) :
    ("--help" ∉ args → "--version" ∈ args →
      namedSimpleA args am cmds = (Except.ok [("version", Value.flag true)], args))
    ∧ ("--help" ∈ args →
      namedSimpleA args am cmds = (Except.ok [("help", Value.flag true)], args)) := by
  constructor
  · intro h1 h2
    simp only [namedSimpleA]
    rw [if_neg h1, if_pos h2]
  · intro h
    simp only [namedSimpleA]
    rw [if_pos h]

theorem claim_C8_witness :
    namedSimpleA ["--version", "--bad"] [] []
      = (Except.ok [("version", Value.flag true)], ["--version", "--bad"])
    ∧ namedSimpleA ["--help", "--version"] [] []
        = (Except.ok [("help", Value.flag true)], ["--help", "--version"]) :=
  ⟨(claim_C8 ["--version", "--bad"] [] []).1 (by decide) (by decide),
   (claim_C8 ["--help", "--version"] [] []).2 (by decide)⟩

/-- Claim C9, counterexample: invoking the parser twice on the same
caller-owned array differs when the first invocation extracted a command,
because the command token was removed by the first call; the second invocation
(receiving the mutated array state) fails with UnknownCommand while the first
succeeded. -/
theorem claim_C9_cex :
    (namedSimpleA (namedSimpleA ["run", "--a", "b"] [] ["run"]).2 [] ["run"]).1
      ≠ (namedSimpleA ["run", "--a", "b"] [] ["run"]).1 := by
  decide

/-- Claim C9, amended: the parser is deterministic, so two invocations on
value-equal, independently supplied token sequences with the same
configuration yield deeply equal outcomes in both variants; re-invoking on the
very same array object is only guaranteed to agree when no command was
extracted by the first call. -/
theorem claim_C9_amended (args1 args2 am cmds : List String) (h : args1 = args2) :
    namedSimpleA args1 am cmds = namedSimpleA args2 am cmds
    ∧ namedSimpleB args1 am = namedSimpleB args2 am := by
  subst h
  exact ⟨rfl, rfl⟩

theorem claim_C9_witness :
    namedSimpleA ["--name", "phil"] [] [] = namedSimpleA ["--name", "phil"] [] []
    ∧ namedSimpleB ["--name", "phil"] [] = namedSimpleB ["--name", "phil"] [] :=
  claim_C9_amended ["--name", "phil"] ["--name", "phil"] [] [] rfl

/-- Claim C10: the token at a value position is consumed verbatim and never
inspected: whenever the name check passed, the loop stores the next token as
the value and moves on, whatever that token is; in particular a value starting
with two dashes is stored, as both variants show on the tokens --a, --b. -/
theorem claim_C10 :
    (∀ (all : List String) (n v : String) (rest : List String) (acc : ResultMap),
        strStartsWith n ("--") = true →
        mainLoop all (n :: v :: rest) acc = mainLoop all rest (updateKey acc (camelcase n) v))
    ∧ namedSimpleB ["--a", "--b"] [] = Except.ok [("a", Value.str "--b")]
    ∧ namedSimpleA ["--a", "--b"] [] []
        = (Except.ok [("a", Value.str "--b")], ["--a", "--b"]) := by
  refine ⟨?_, rfl, rfl⟩
  intro all n v rest acc h
  simp only [mainLoop]
  rw [if_pos h]

theorem claim_C10_witness :
    mainLoop ["--a", "x"] ["--a", "x"] []
      = mainLoop ["--a", "x"] [] (updateKey [] (camelcase ("--a")) ("x")) :=
  claim_C10.1 ["--a", "x"] ("--a") ("x") [] [] (by decide)

/-- Claim C4: when the token read at a name position starts with the two-dash
marker but is the last token of the sequence the main loop runs on, parsing
fails with the MissingValue kind, whose id string is the one attached by
throwLastArgCannotBeNamed, and the failure detail carries that token together
with the complete token sequence the loop runs on; no partial result exists
since the error carries no mapping.  The last conjunct shows the Variant A
case after command extraction, where the reported sequence is the complete
post-extraction sequence. -/
theorem claim_C4 (l : List (String × String)) (a : String) (am : List String)
    (hl : ∀ p ∈ l, strStartsWith p.1 ("--") = true)
    (ha : strStartsWith a ("--") = true) :
    namedSimpleB (flatten l ++ [a]) am
        = Except.error (ParseErr.missingValue a (flatten l ++ [a]))
    ∧ errId (ParseErr.missingValue a (flatten l ++ [a])) = "last arg cannot be named"
    ∧ (∀ (cmds : List String) (c : String), cmds ≠ [] → c ∈ cmds →
        "--help" ∉ c :: (flatten l ++ [a]) → "--version" ∉ c :: (flatten l ++ [a]) →
        namedSimpleA (c :: (flatten l ++ [a])) am cmds
          = (Except.error (ParseErr.missingValue a (flatten l ++ [a])), flatten l ++ [a])) := by
  refine ⟨?_, rfl, ?_⟩
  · simp only [namedSimpleB]
    rw [mainLoop_append l hl, mainLoop_last _ _ _ ha]
  · intro cmds c hc hm h1 h2
    rw [namedSimpleA_command c _ am cmds hc h1 h2 hm,
      mainLoop_append l hl, mainLoop_last _ _ _ ha]

theorem claim_C4_witness :
    namedSimpleB ["--flag"] []
      = Except.error (ParseErr.missingValue ("--flag") ["--flag"]) :=
  (claim_C4 [] ("--flag") [] (by simp) (by decide)).1

/-- Claim C5: a token read at a name position that does not start with the
two-dash marker makes parsing fail with the ExpectedNamedArgument kind, whose
id string is the one attached by throwExpectedToBeNamed, with the offending
token and the complete token sequence the loop runs on in the detail;
conversely any token starting with the marker passes the check — the loop
either reports a missing value or consumes the pair, with no further length or
single-letter test, as the two-letter name in the third conjunct shows.  The
last conjunct covers Variant A after command extraction. -/
theorem claim_C5 (l : List (String × String)) (t : String) (rest am : List String)
    (hl : ∀ p ∈ l, strStartsWith p.1 ("--") = true)
    (ht : strStartsWith t ("--") = false) :
    (namedSimpleB (flatten l ++ t :: rest) am
        = Except.error (ParseErr.expectedNamed t (flatten l ++ t :: rest))
      ∧ errId (ParseErr.expectedNamed t (flatten l ++ t :: rest)) = "expected to be named")
    ∧ (∀ (all : List String) (n : String) (tail : List String) (acc : ResultMap),
        strStartsWith n ("--") = true →
        mainLoop all (n :: tail) acc
          = match tail with
            | [] => Except.error (ParseErr.missingValue n all)
            | v :: tr => mainLoop all tr (updateKey acc (camelcase n) v))
    ∧ namedSimpleB ["--n", "phil"] [] = Except.ok [("n", Value.str "phil")]
    ∧ (∀ (cmds : List String) (c : String), cmds ≠ [] → c ∈ cmds →
        "--help" ∉ c :: (flatten l ++ t :: rest) →
        "--version" ∉ c :: (flatten l ++ t :: rest) →
        namedSimpleA (c :: (flatten l ++ t :: rest)) am cmds
          = (Except.error (ParseErr.expectedNamed t (flatten l ++ t :: rest)),
             flatten l ++ t :: rest)) := by
  refine ⟨⟨?_, rfl⟩, ?_, rfl, ?_⟩
  · simp only [namedSimpleB]
    rw [mainLoop_append l hl, mainLoop_notNamed _ _ _ _ ht]
  · intro all n tail acc h
    cases tail with
    | nil => simp only [mainLoop]; rw [if_pos h]
    | cons v tr => simp only [mainLoop]; rw [if_pos h]
  · intro cmds c hc hm h1 h2
    rw [namedSimpleA_command c _ am cmds hc h1 h2 hm,
      mainLoop_append l hl, mainLoop_notNamed _ _ _ _ ht]

theorem claim_C5_witness :
    namedSimpleB ["positional"] []
      = Except.error (ParseErr.expectedNamed ("positional") ["positional"]) :=
  ((claim_C5 [] ("positional") [] [] (by simp) (by decide)).1).1

/-- Claim C2, counterexample: parsing succeeds on the help short-circuit even
though a key is declared in allowMultiple, and the resulting mapping does not
contain that camel-cased key at all, let alone as an array. -/
theorem claim_C2_cex :
    (namedSimpleA ["--help"] ["--name"] []).1 = Except.ok [("help", Value.flag true)]
    ∧ "name" ∈ (["--name"].map camelcase)
    ∧ getVal [("help", Value.flag true)] ("name") = none :=
  ⟨rfl, by decide, rfl⟩

/-- Claim C2, amended: on every successful parse that does not go through the
help/version short-circuit, every camel-cased allowMultiple key maps to the
array of exactly its supplied values in encounter order (empty when absent),
and every other key maps to the scalar string of its last occurrence (absent
when it never occurred) — except the reserved key _command of Variant A, which
holds the extracted command as a scalar; the Variant A conjunct assumes, as
the specification does, that no user key camel-cases to the reserved name. -/
theorem claim_C2_amended (args am : List String) (res : ResultMap) :
    (namedSimpleB args am = Except.ok res →
      ∃ ps, collect args = some ps
        ∧ (∀ k, k ∈ am.map camelcase → getVal res k = some (Value.arr (valuesFor k ps)))
        ∧ (∀ k, k ∉ am.map camelcase → getVal res k = (lastValue k ps).map Value.str))
    ∧ (∀ (cmds : List String) (c : String) (rest : List String),
        args = c :: rest → "--help" ∉ args → "--version" ∉ args → cmds ≠ [] → c ∈ cmds →
        (namedSimpleA args am cmds).1 = Except.ok res →
        ∃ ps, collect rest = some ps
          ∧ ((∀ p ∈ ps, p.1 ≠ "_command") → (∀ b ∈ am, camelcase b ≠ "_command") →
              (∀ k, k ∈ am.map camelcase → getVal res k = some (Value.arr (valuesFor k ps)))
              ∧ (∀ k, k ∉ am.map camelcase → k ≠ "_command" →
                  getVal res k = (lastValue k ps).map Value.str)
              ∧ getVal res ("_command") = some (Value.str c))) := by
  constructor
  · intro h
    simp only [namedSimpleB] at h
    cases hcol : collect args with
    | none =>
      obtain ⟨e, he⟩ := mainLoop_err args args (initResult am) hcol
      rw [he] at h
      exact absurd h (by simp)
    | some ps =>
      rw [mainLoop_ok args args (initResult am) ps hcol] at h
      have hres : res = applyPairs (initResult am) ps := (Except.ok.inj h).symm
      subst hres
      refine ⟨ps, rfl, ?_, ?_⟩
      · intro k hk
        have hinit : getVal (initResult am) k = some (Value.arr []) := by
          rw [getVal_initResult, if_pos hk]
        have harr := getVal_applyPairs_arr ps (initResult am) k [] hinit
        simpa using harr
      · intro k hk
        have hinit : getVal (initResult am) k = none := by
          rw [getVal_initResult, if_neg hk]
        have hna : ∀ vs, getVal (initResult am) k ≠ some (Value.arr vs) := by
          rw [hinit]; simp
        rw [getVal_applyPairs_scalar ps (initResult am) k hna, hinit, scalarResult_none]
  · intro cmds c rest he h1 h2 hc hm hok
    subst he
    rw [namedSimpleA_command c rest am cmds hc h1 h2 hm] at hok
    have hok' : mainLoop rest rest (setKey (initResult am) ("_command") (Value.str c))
        = Except.ok res := hok
    cases hcol : collect rest with
    | none =>
      obtain ⟨e, he'⟩ := mainLoop_err rest rest _ hcol
      rw [he'] at hok'
      exact absurd hok' (by simp)
    | some ps =>
      rw [mainLoop_ok rest rest _ ps hcol] at hok'
      have hres : res = applyPairs (setKey (initResult am) ("_command") (Value.str c)) ps :=
        (Except.ok.inj hok').symm
      subst hres
      refine ⟨ps, rfl, ?_⟩
      intro hps hbm
      refine ⟨?_, ?_, ?_⟩
      · intro k hk
        obtain ⟨b, hb, hkb⟩ := List.mem_map.1 hk
        have hkc : k ≠ "_command" := by rw [← hkb]; exact hbm b hb
        have hinit : getVal (setKey (initResult am) ("_command") (Value.str c)) k
            = some (Value.arr []) := by
          rw [getVal_setKey_ne _ _ _ _ hkc, getVal_initResult, if_pos hk]
        have harr := getVal_applyPairs_arr ps _ k [] hinit
        simpa using harr
      · intro k hk hkc
        have hinit : getVal (setKey (initResult am) ("_command") (Value.str c)) k = none := by
          rw [getVal_setKey_ne _ _ _ _ hkc, getVal_initResult, if_neg hk]
        have hna : ∀ vs,
            getVal (setKey (initResult am) ("_command") (Value.str c)) k
              ≠ some (Value.arr vs) := by
          rw [hinit]; simp
        rw [getVal_applyPairs_scalar ps _ k hna, hinit, scalarResult_none]
      · have hinit : getVal (setKey (initResult am) ("_command") (Value.str c)) ("_command")
            = some (Value.str c) := getVal_setKey_self _ _ _
        have hna : ∀ vs,
            getVal (setKey (initResult am) ("_command") (Value.str c)) ("_command")
              ≠ some (Value.arr vs) := by
          rw [hinit]; simp
        rw [getVal_applyPairs_scalar ps _ ("_command") hna, hinit,
          lastValue_eq_none _ _ hps]
        rfl

theorem claim_C2_witness :
    getVal [("name", Value.arr ["phil", "matt"])] ("name")
      = some (Value.arr ["phil", "matt"]) := by
  obtain ⟨ps, hcol, hmulti, hsc⟩ :=
    (claim_C2_amended ["--name", "phil", "--name", "matt"] ["--name"]
        [("name", Value.arr ["phil", "matt"])]).1 (by rfl)
  have hps : ps = [("name", "phil"), ("name", "matt")] :=
    Option.some.inj (hcol.symm.trans (by rfl))
  have h := hmulti ("name") (by decide)
  rw [hps] at h
  exact h

end ParseArgs
